import Mathlib

/-!
# wrSQL — shallow embedding and verification of specification claims

This file embeds the parts of the wrSQL library (`wr::sql`) needed to settle
the specification claims: the `IDSet` sorted container and its virtual-table
bridge (`IDSet.cxx`), the `Statement` prepare/step loops (`Statement.cxx`),
the transaction begin/commit/rollback machinery with its busy-retry loop
(`Transaction.cxx`, both source variants), and the `Session` commit/rollback
hook queues (`Session.cxx` / `SessionPrivate.h`).

Machine integers: IDs are sqlite 64-bit integers used only for comparison and
equality, never arithmetic, so they are embedded as `Int`.  The C++ stores
them in a `std::vector` kept sorted by binary search (`std::equal_range` /
`std::lower_bound`); on sorted lists those binary searches coincide with the
structural scans used here.
-/

namespace WrSql

/-- sqlite 64-bit row/id values (`wr::sql::ID`); only compared, never
computed with, so overflow plays no role. -/
abbrev ID := Int

/-- Strict ascending order of the `IDSet` storage vector
(`IDSet::Body::storage_`): sorted with no duplicates. -/
abbrev Ascending (l : List ID) : Prop := List.Sorted (· < ·) l

/-- Index of the first element `≥ x`, as computed by `std::lower_bound`
on the sorted storage vector. -/
def lowerBoundIdx : List ID → ID → Nat
  | [], _ => 0
  | y :: ys, x => if y < x then lowerBoundIdx ys x + 1 else 0

/-- `IDSet::Body::insert(ID)` (IDSet.cxx lines 224–242): `std::equal_range`
on the sorted vector; if the id is absent it is inserted at the lower-bound
position and `true` ("inserted") is reported, otherwise the vector is
untouched and `false` is reported. -/
def insertID : List ID → ID → List ID × Bool
  | [], x => ([x], true)
  | y :: ys, x =>
    if x < y then (x :: y :: ys, true)
    else if x = y then (y :: ys, false)
    else
      let r := insertID ys x
      (y :: r.1, r.2)

/-- `IDSet::Body::erase(ID)` (IDSet.cxx lines 326–339): `std::equal_range`;
if found, the element is erased and 1 returned, else 0. -/
def eraseID : List ID → ID → List ID × Nat
  | [], _ => ([], 0)
  | y :: ys, x =>
    if x < y then (y :: ys, 0)
    else if x = y then (ys, 1)
    else
      let r := eraseID ys x
      (y :: r.1, r.2)

/-- `IDSet::Body::count(ID)` (IDSet.cxx lines 709–721). -/
def countID (l : List ID) (x : ID) : Nat := if x ∈ l then 1 else 0

/-- The merge loop of `IDSet::insert(const IDSet &)` (IDSet.cxx lines
260–290), one element at a time: equal heads advance both sides, a smaller
source element is inserted (the C++ inserts the whole run below `*dst` found
by `std::lower_bound` in one `vector::insert`), a larger one skips ahead in
the destination (the C++ jumps by `std::lower_bound`).  Returns the new
storage and the number of newly added elements. -/
def insertMerge : List ID → List ID → List ID × Nat
  | dst, [] => (dst, 0)
  | [], s :: ss => (s :: ss, (s :: ss).length)
  | d :: ds, s :: ss =>
    if s = d then
      let r := insertMerge ds ss
      (d :: r.1, r.2)
    else if s < d then
      let r := insertMerge (d :: ds) ss
      (s :: r.1, r.2 + 1)
    else
      let r := insertMerge ds (s :: ss)
      (d :: r.1, r.2)

/-- `IDSet::insert(const IDSet &other)` (IDSet.cxx lines 246–291) including
its early returns; `same` models the pointer test `&other == this`. -/
def insertSet (dst src : List ID) (same : Bool) : List ID × Nat :=
  if src = [] ∨ same then (dst, 0)
  else if dst = [] then (src, src.length)
  else insertMerge dst src

/-- The merge loop of `IDSet::erase(const IDSet &)` (IDSet.cxx lines
386–408), one element at a time: equal heads erase (the C++ erases whole
equal runs), a smaller source element advances the source
(`std::lower_bound`), a larger one keeps the destination element. -/
def eraseMerge : List ID → List ID → List ID × Nat
  | dst, [] => (dst, 0)
  | [], _ => ([], 0)
  | d :: ds, s :: ss =>
    if s = d then
      let r := eraseMerge ds ss
      (r.1, r.2 + 1)
    else if s < d then eraseMerge (d :: ds) ss
    else
      let r := eraseMerge ds (s :: ss)
      (d :: r.1, r.2)

/-- `IDSet::erase(const IDSet &other)` (IDSet.cxx lines 373–409) including
its early returns and the self-erase branch. -/
def eraseSet (dst src : List ID) (same : Bool) : List ID × Nat :=
  if dst = [] ∨ src = [] then (dst, 0)
  else if same then ([], dst.length)
  else eraseMerge dst src

/-- The merge loop of `IDSet::intersect(const IDSet &)` (IDSet.cxx lines
469–484) plus the trailing erase of the destination tail once the source is
exhausted. -/
def intersectMerge : List ID → List ID → List ID × Nat
  | [], _ => ([], 0)
  | d :: ds, [] => ([], (d :: ds).length)
  | d :: ds, s :: ss =>
    if s = d then
      let r := intersectMerge ds ss
      (d :: r.1, r.2)
    else if s < d then intersectMerge (d :: ds) ss
    else
      let r := intersectMerge ds (s :: ss)
      (r.1, r.2 + 1)

/-- `IDSet::intersect(const IDSet &other)` (IDSet.cxx lines 446–487)
including its early returns. -/
def intersectSet (dst src : List ID) (same : Bool) : List ID × Nat :=
  if dst = [] ∨ same then (dst, 0)
  else if src = [] then ([], dst.length)
  else intersectMerge dst src

/-- The merge loop of `IDSet::symmetric_difference(const IDSet &)`
(IDSet.cxx lines 567–596), one element at a time: equal heads are deleted
from the destination, a smaller source element is inserted, a larger one
keeps the destination element. -/
def symdiffMerge : List ID → List ID → List ID
  | dst, [] => dst
  | [], s :: ss => s :: ss
  | d :: ds, s :: ss =>
    if s = d then symdiffMerge ds ss
    else if s < d then s :: symdiffMerge (d :: ds) ss
    else d :: symdiffMerge ds (s :: ss)

/-- `IDSet::symmetric_difference(const IDSet &other)` (IDSet.cxx lines
555–599) including the self case (`clear()`) and the empty-source early
return. -/
def symdiffSet (dst src : List ID) (same : Bool) : List ID :=
  if same then []
  else if src = [] then dst
  else symdiffMerge dst src

/-! ## IDSet object model: body address, storage, attachment (IDSet.cxx) -/

/-- The observable state of an `IDSet`: the stable heap address of its
`Body` (from which the SQL name is derived), the sorted storage vector, and
the optional attached `Session` (identified by an abstract session id). -/
structure IDSetM where
  bodyAddr : Nat
  storage : List ID
  db : Option Nat
  deriving Repr, DecidableEq

/-- `IDSet::detach()` (IDSet.cxx lines 205–217) as it affects the model
state: drops the virtual table and clears the session pointer. -/
def IDSetM.detach (s : IDSetM) : IDSetM := { s with db := none }

/-- `IDSet::attach(Session &)` (IDSet.cxx lines 178–201) as it affects the
model state: after the no-op/detach-first preamble the session pointer is
set and the virtual table `idset_<body-address>` is created. -/
def IDSetM.attach (s : IDSetM) (d : Nat) : IDSetM := { s with db := some d }

/-- `IDSet::sql_name()` (IDSet.cxx lines 698–702): `idset_%p` of the body
pointer, i.e. a string derived only from the stable body address. -/
def sqlName (s : IDSetM) : String :=
  "idset_" ++ String.mk (Nat.toDigits 16 s.bodyAddr)

/-- `IDSet::swap(IDSet &)` (IDSet.cxx lines 666–694): the storages are
swapped (never the body pointers); if the two attachments differ, each set
is re-attached to the other's session (`other.detach(); other.attach(*db);
detach(); attach(*other_db);`, with the attach skipped for a null session).
`same` models the pointer test `&other == this`. -/
def swapSets (a b : IDSetM) (same : Bool) : IDSetM × IDSetM :=
  if same then (a, b)
  else
    let a1 : IDSetM := { a with storage := b.storage }
    let b1 : IDSetM := { b with storage := a.storage }
    if a.db = b.db then (a1, b1)
    else
      let b2 := match a.db with
        | some d => b1.detach.attach d
        | none => b1.detach
      let a2 := match b.db with
        | some d => a1.detach.attach d
        | none => a1.detach
      (a2, b2)

/-! ## Virtual-table cursor (IDSet.cxx, `IDSet::SQLInterface::Cursor`) -/

/-- The virtual-table cursor state: a numeric position and an optional
current id (`pos` / `id` members, IDSet.cxx lines 840–850); a `none` id
means not yet positioned or at end of the result set. -/
structure Cursor where
  pos : Nat
  id : Option ID
  deriving Repr, DecidableEq

/-- A freshly opened cursor (`openCursor`, IDSet.cxx lines 1046–1055): the
`optional` id default-constructs empty. -/
def openedCursor : Cursor := { pos := 0, id := none }

/-- `IDSet::SQLInterface::filter` (IDSet.cxx lines 1071–1088): on an empty
storage the cursor is left untouched (id stays empty), otherwise it is
positioned on the first element. -/
def cursorFilter (v : List ID) (c : Cursor) : Cursor :=
  match v with
  | [] => c
  | x :: _ => { pos := 0, id := some x }

/-- `IDSet::SQLInterface::Cursor::sync` (IDSet.cxx lines 1322–1349): if the
element at the recorded position still equals the recorded id, nothing to
do; otherwise `std::lower_bound` on the last-known id relocates the cursor,
advancing one extra step when the located element equals that id, and
marking EOF when nothing remains. -/
def syncAt (v : List ID) (pos : Nat) (x : ID) : Cursor :=
  if v[pos]? = some x then ⟨pos, some x⟩
  else
    let lb := lowerBoundIdx v x
    match v[lb]? with
    | none => ⟨pos, none⟩
    | some y =>
      if y = x then
        match v[lb + 1]? with
        | none => ⟨pos, none⟩
        | some z => ⟨lb + 1, some z⟩
      else ⟨lb, some y⟩

/-- `Cursor::sync` proper: a cursor with no id (unpositioned or EOF)
reports false and is untouched; otherwise relocate via `syncAt`. -/
def cursorSync (v : List ID) (c : Cursor) : Cursor :=
  match c.id with
  | none => c
  | some x => syncAt v c.pos x

/-- `IDSet::SQLInterface::Cursor::next` (IDSet.cxx lines 1353–1369): no-op
at EOF; otherwise sync, and only if the synced cursor still carries the
original id advance the position, loading the next element or marking
EOF. -/
def advanceAt (v : List ID) (c1 : Cursor) (orig : ID) : Cursor :=
  if c1.id = some orig then
    match v[c1.pos + 1]? with
    | some z => ⟨c1.pos + 1, some z⟩
    | none => ⟨c1.pos + 1, none⟩
  else c1

/-- `Cursor::next` proper: no-op at EOF, else sync then advance. -/
def cursorNext (v : List ID) (c : Cursor) : Cursor :=
  match c.id with
  | none => c
  | some orig => advanceAt v (cursorSync v c) orig

/-- The value served for the current row (`getColumnValue` / `getRowID`,
IDSet.cxx lines 1113–1150): both sync the cursor first and then read its
id (EOF when the sync reports no value). -/
def cursorServe (v : List ID) (c : Cursor) : Cursor := cursorSync v c

/-- One full engine iteration against a possibly mutating storage: the
cursor serves a row, the storage is replaced by the next vector in `muts`
(client-side inserts/erases between two steps), the cursor advances and
serves again.  Returns the list of served ids (`none` = EOF). -/
def cursorRunAux (c : Cursor) : List (List ID) → List (Option ID)
  | [] => []
  | w :: ws =>
    let c1 := cursorServe w (cursorNext w c)
    c1.id :: cursorRunAux c1 ws

/-- The served-id trace of a cursor over initial storage `v0` and the
storage contents `muts` seen at each subsequent step. -/
def cursorRun (v0 : List ID) (muts : List (List ID)) : List (Option ID) :=
  let c0 := cursorServe v0 (cursorFilter v0 openedCursor)
  c0.id :: cursorRunAux c0 muts

/-- The least element of `v` strictly greater than `x`, if any (for a
sorted `v` this is `List.find?` of the first element exceeding `x`). -/
def minGreater (v : List ID) (x : ID) : Option ID :=
  v.find? (fun y => decide (x < y))

/-- Specification-side serve: after visiting `prev`, the next served id is
the least id exceeding `prev` that is present in the current storage. -/
def specServe (prev : Option ID) (w : List ID) : Option ID :=
  prev.bind (fun x => minGreater w x)

/-- Specification-side trace: first the least (first) element of `v0`,
then at each step the least id of the current storage exceeding the
previously served id. -/
def specRunAux (prev : Option ID) : List (List ID) → List (Option ID)
  | [] => []
  | w :: ws =>
    let n := specServe prev w
    n :: specRunAux n ws

/-- Specification-side trace of a full iteration. -/
def specRun (v0 : List ID) (muts : List (List ID)) : List (Option ID) :=
  v0.head? :: specRunAux v0.head? muts

/-- Relation between consecutive served values: whenever both are live
ids, the later strictly exceeds the earlier. -/
def ServedLt (a b : Option ID) : Prop :=
  ∀ x y, a = some x → b = some y → x < y

/-! ## Virtual-table update hook (`IDSet::SQLInterface::update`) -/

/-- The conflict action reported by `sqlite3_vtab_on_conflict`; the hook
only distinguishes REPLACE, IGNORE and "anything else" (ROLLBACK, FAIL,
ABORT). -/
inductive ConflictAction
  | rollbackTxn
  | ignoreRow
  | failStmt
  | abortStmt
  | replace
  deriving Repr, DecidableEq

/-- Status codes returned by the update hook. -/
inductive UpdateStatus
  | ok
  | constraintNotNull
  | constraintUnique
  | constraintVtab
  deriving Repr, DecidableEq

/-- Result of one update-hook call: new storage, returned status, the
`*out_rowid` value if assigned, and whether `vtab->zErrMsg` was set. -/
structure UpdateResult where
  storage : List ID
  status : UpdateStatus
  outRowid : Option ID
  errMsgSet : Bool
  deriving Repr, DecidableEq

/-- `sqlite3_value_int64` of a possibly-NULL value: NULL decodes as 0. -/
def i64 (v : Option ID) : ID := v.getD 0

/-- `IDSet::SQLInterface::update` (IDSet.cxx lines 1154–1291).  `argv` is
the argument vector (`none` = SQL NULL): one argument means DELETE(rowid);
a null first argument means INSERT(rowid = argv[1], id = argv[2]); else
UPDATE(old rowid = argv[0], new rowid = argv[1], id = argv[2]).  Returns
`none` where the C++ would read out of bounds or call
`optional::value()` on an empty optional (outside the engine's calling
contract). -/
def vtabUpdate (storage : List ID) (conflict : ConflictAction)
    (argv : List (Option ID)) : Option UpdateResult :=
  match argv with
  | [] => some ⟨storage, .ok, none, false⟩
  | [some r] => some ⟨(eraseID storage r).1, .ok, none, false⟩
  | [none] => none
  | arg0 :: arg1 :: rest =>
    match arg0 with
    | none =>
      match rest with
      | [] => none
      | arg2 :: _ =>
        match arg2 with
        | none =>
          some ⟨storage, .constraintNotNull, none,
                conflict != ConflictAction.ignoreRow⟩
        | some idv =>
          if arg1 = none ∨ arg1 = some idv then
            if (insertID storage idv).2 then
              some ⟨(insertID storage idv).1, .ok, none, false⟩
            else match conflict with
              | .replace =>
                some ⟨(insertID storage idv).1, .ok, some idv, false⟩
              | .ignoreRow =>
                some ⟨(insertID storage idv).1, .constraintUnique, none, false⟩
              | _ =>
                some ⟨(insertID storage idv).1, .constraintUnique, none, true⟩
          else some ⟨storage, .constraintVtab, none, true⟩
    | some r =>
      if i64 arg1 = r then
        match rest with
        | [] => some ⟨storage, .ok, none, false⟩
        | arg2 :: _ =>
          match arg2 with
          | none =>
            some ⟨storage, .constraintNotNull, none,
                  conflict != ConflictAction.ignoreRow⟩
          | some idv =>
            if idv = r then some ⟨storage, .ok, none, false⟩
            else if countID storage idv ≠ 0 then
              match conflict with
              | .replace => some ⟨(eraseID storage r).1, .ok, none, false⟩
              | .ignoreRow => some ⟨storage, .constraintUnique, none, false⟩
              | _ => some ⟨storage, .constraintUnique, none, true⟩
            else
              some ⟨(insertID (eraseID storage r).1 idv).1, .ok, none, false⟩
      else
        some ⟨storage, .constraintVtab, none,
              conflict != ConflictAction.ignoreRow⟩

/-! ## Statement step/prepare loops (Statement.cxx) -/

/-- A status returned by the engine call surface (`sqlite3_step` /
`sqlite3_prepare_v2`); the engine is an external collaborator, so each loop
iteration consumes the next status from an oracle list.  `other c` stands
for any status code `c` not handled by a dedicated case label. -/
inductive EngStatus
  | rowSt
  | okSt
  | doneSt
  | interruptSt
  | lockedSt
  | busySt
  | other (code : Int)
  deriving Repr, DecidableEq

/-- What a call to `Statement::next` / `Statement::prepare` does once the
loop finishes: produce a row (live when the statement stayed active, null
after a reset), or throw one of the three error kinds. -/
inductive NextOutcome
  | gotRow (live : Bool)
  | threwInterrupt
  | threwBusy
  | threwError (code : Int)
  deriving Repr, DecidableEq

/-- The `do … while (status == SQLITE_LOCKED)` loop of `Statement::next`
(Statement.cxx lines 714–750).  Each oracle entry pairs the status returned
by `sqlite3_step` with the result `waitForUnlock()` would report if
consulted.  The second component records whether `reset()` ran (making the
statement inactive, so `Row(*this)` is null).  `none` = the oracle ran dry
(the loop would step again). -/
def stepLoop : List (EngStatus × Bool) → Option (NextOutcome × Bool)
  | [] => none
  | (s, waitOk) :: rest =>
    match s with
    | .rowSt => some (.gotRow true, false)
    | .okSt => some (.gotRow false, true)
    | .doneSt => some (.gotRow false, true)
    | .interruptSt => some (.threwInterrupt, true)
    | .lockedSt => if waitOk then stepLoop rest else some (.threwBusy, true)
    | .busySt => some (.threwBusy, true)
    | .other c => some (.threwError c, true)

/-- `Statement::next` (Statement.cxx lines 714–750) including the initial
`!isPrepared() || !isActive()` guard that returns `end()` (a null row)
without stepping. -/
def stmtNext (isPrepared isActive : Bool) (oracle : List (EngStatus × Bool)) :
    Option (NextOutcome × Bool) :=
  if !isPrepared || !isActive then some (.gotRow false, false)
  else stepLoop oracle

/-- Outcome of `Statement::prepare`. -/
inductive PrepOutcome
  | preparedOk
  | threwBusy
  | threwError (code : Int)
  deriving Repr, DecidableEq

/-- The `do … while (status != SQLITE_OK)` loop of `Statement::prepare`
(Statement.cxx lines 214–254): OK stores the handle and stops; LOCKED waits
for unlock and retries, raising Busy when the wait reports a possible
deadlock; BUSY raises Busy; every other status raises Error. -/
def prepLoop : List (EngStatus × Bool) → Option PrepOutcome
  | [] => none
  | (s, waitOk) :: rest =>
    match s with
    | .okSt => some .preparedOk
    | .lockedSt => if waitOk then prepLoop rest else some .threwBusy
    | .busySt => some .threwBusy
    | .rowSt => some (.threwError 100)
    | .doneSt => some (.threwError 101)
    | .interruptSt => some (.threwError 9)
    | .other c => some (.threwError c)

/-- The prepared/active bits of a `Statement` (`stmt_` tag plus handle;
`isActive ⇒ isPrepared`). -/
structure StmtState where
  isPrepared : Bool
  isActive : Bool
  deriving Repr, DecidableEq

/-- `Statement::finalize` (Statement.cxx lines 258–268): when prepared it
resets (cancelling any active iteration) and releases the handle; always
clears the session pointer. -/
def stmtFinalize (s : StmtState) : StmtState :=
  if s.isPrepared then ⟨false, false⟩ else s

/-- `Statement::prepare` (Statement.cxx lines 215–256): finalizes first
(so preparing an already-prepared statement releases the old handle), then
runs the prepare loop; on success the statement is prepared and inactive. -/
def stmtPrepare (s : StmtState) (oracle : List (EngStatus × Bool)) :
    Option (StmtState × PrepOutcome) :=
  let s0 := stmtFinalize s
  match prepLoop oracle with
  | none => none
  | some .preparedOk => some (⟨true, s0.isActive⟩, .preparedOk)
  | some o => some (s0, o)

/-! ## Transaction busy-retry loop (`Transaction::begin`, both variants) -/

/-- How one invocation of the caller-supplied `body` closure ends: normal
return, a thrown `Busy`, or any other exception. -/
inductive BodyOutcome
  | ret
  | busy
  | exn
  deriving Repr, DecidableEq

/-- One attempt of the `Transaction::begin` retry loop: the outcome of
`code(txn)` together with the values of `txn.nested()` (`outer_ != nullptr`)
and `txn.active()` (`session_ != nullptr`) at the moment a thrown Busy
reaches the `catch` clause.  Those two bits are functions of the
surrounding transaction stack and of what `body` did to the frame; the
loop itself only inspects them. -/
structure Attempt where
  outcome : BodyOutcome
  nestedAtCatch : Bool
  activeAtCatch : Bool
  deriving Repr, DecidableEq

/-- How `Transaction::begin` itself ends. -/
inductive BeginOutcome
  | committed
  | busyPropagated
  | exnPropagated
  deriving Repr, DecidableEq

/-- Observable result of the retry loop: final outcome, how many times the
body ran, and how many times the catch clause rolled an active frame
back before re-running the body. -/
structure BeginRes where
  outcome : BeginOutcome
  attempts : Nat
  rollbacks : Nat
  deriving Repr, DecidableEq

/-- The retry loop of `Transaction::begin` in src/Transaction.cxx (lines
92–117): `catch (Busy &) { if (txn.nested()) throw; else txn.rollback(); }`
and loop again; a normal return commits and stops; any other exception
propagates (after destructor rollback).  `none` = the oracle ran dry. -/
def beginLoopPlain : List Attempt → Option BeginRes
  | [] => none
  | a :: rest =>
    match a.outcome with
    | .ret => some ⟨.committed, 1, 0⟩
    | .exn => some ⟨.exnPropagated, 1, 0⟩
    | .busy =>
      if a.nestedAtCatch then some ⟨.busyPropagated, 1, 0⟩
      else
        match beginLoopPlain rest with
        | none => none
        | some r =>
          some ⟨r.outcome, r.attempts + 1,
                r.rollbacks + (if a.activeAtCatch then 1 else 0)⟩

/-- The mode-escalating variant of the retry loop (the second
`Transaction.cxx` in the sources, lines 97–121): the catch clause is
`if (txn.nested() || !txn.active()) throw; else { txn.rollback();
mode = upgrade(mode); }`, where the mode (DEFERRED → IMMEDIATE →
EXCLUSIVE) only selects the SQL text of the next BEGIN.  The result also
reports the final mode reached. -/
def beginLoopEsc (mode : Nat) : List Attempt → Option (BeginRes × Nat)
  | [] => none
  | a :: rest =>
    match a.outcome with
    | .ret => some (⟨.committed, 1, 0⟩, mode)
    | .exn => some (⟨.exnPropagated, 1, 0⟩, mode)
    | .busy =>
      if a.nestedAtCatch || !a.activeAtCatch then
        some (⟨.busyPropagated, 1, 0⟩, mode)
      else
        match beginLoopEsc (if mode = 0 then 1 else 2) rest with
        | none => none
        | some (r, m) => some (⟨r.outcome, r.attempts + 1, r.rollbacks + 1⟩, m)

/-! ## Session commit/rollback hook queues (SessionPrivate.h, Session.cxx) -/

/-- Hook closures are abstracted by integer labels; the queues record the
labels in registration order (`std::list` with `emplace_back`). -/
structure HookQueues where
  commitActions : List Nat
  rollbackActions : List Nat
  deriving Repr, DecidableEq

/-- A hook registration while a transaction is active:
`Session::onFinalCommit` appends to the commit queue,
`Session::onRollback` appends to the rollback queue (Session.cxx lines
489–511, the `inner_txn_ != nullptr` branches). -/
inductive RegEvent
  | regCommit (label : Nat)
  | regRollback (label : Nat)
  deriving Repr, DecidableEq

/-- Apply one registration to the queues. -/
def applyReg (q : HookQueues) : RegEvent → HookQueues
  | .regCommit a => { q with commitActions := q.commitActions ++ [a] }
  | .regRollback a => { q with rollbackActions := q.rollbackActions ++ [a] }

/-- Register a whole sequence of hooks in order. -/
def registerAll (q : HookQueues) : List RegEvent → HookQueues
  | [] => q
  | e :: es => registerAll (applyReg q e) es

/-- The drain loop of `Session::Body::transactionCommitted`
(SessionPrivate.h appendix, Session.cxx lines 604–613):
`while (!commit_actions_.empty()) { front()(); pop_front(); }` — the
invocation order is front-to-back. -/
def drainFifo : List Nat → List Nat
  | [] => []
  | a :: rest => a :: drainFifo rest

/-- The drain loop of `Session::Body::transactionRolledBack` (Session.cxx
lines 626–629): `while (!rollback_actions_.empty()) { back()();
pop_back(); }` — the invocation order is back-to-front. -/
def drainLifo : List Nat → List Nat
  | [] => []
  | a :: rest => drainLifo rest ++ [a]

/-- `Session::Body::transactionCommitted` (Session.cxx lines 604–613):
clear the rollback queue, then drain the commit queue FIFO.  Returns the
final queues and the list of hook labels invoked, in invocation order. -/
def transactionCommitted (q : HookQueues) : HookQueues × List Nat :=
  (⟨[], []⟩, drainFifo q.commitActions)

/-- `Session::Body::transactionRolledBack` (Session.cxx lines 617–630),
hook-queue part: clear the commit queue, then drain the rollback queue
LIFO.  Returns the final queues and the invocation order.  (The walk of
the inner-transaction stack that precedes it is modelled with the
transaction loop above.) -/
def transactionRolledBack (q : HookQueues) : HookQueues × List Nat :=
  (⟨[], []⟩, drainLifo q.rollbackActions)

/-- Labels of the commit registrations, in registration order. -/
def commitLabels : List RegEvent → List Nat
  | [] => []
  | .regCommit a :: es => a :: commitLabels es
  | .regRollback _ :: es => commitLabels es

/-- Labels of the rollback registrations, in registration order. -/
def rollbackLabels : List RegEvent → List Nat
  | [] => []
  | .regRollback a :: es => a :: rollbackLabels es
  | .regCommit _ :: es => rollbackLabels es

/-! ## Registered-statement lookup (`Session::statement(size_t)`) -/

/-- What `Session::statement(size_t)` hands back: either the cached
per-session `Statement` object itself, or a freshly compiled private
copy. -/
inductive StmtRef
  | cachedObj (s : StmtState)
  | privateCopy (s : StmtState)
  deriving Repr, DecidableEq

/-- Modelled from the spec: the definition of the `Statement::Ptr`-returning
`Session::statement(size_t)` is not among the sources; only its declaration
and documentation (Session.h) and its caller `Session::exec(size_t, ...)`
are.  Per those: the statement cache is grown on demand; an unknown id is
an invalid-argument error (`none` here); an absent or finalized slot is
(re)compiled from the registry text and installed; and if the cached
`Statement` is already active (re-entrant use), a freshly compiled private
copy is returned instead of the cached object, which is left untouched. -/
def sessionStatementById (cache : List (Option StmtState))
    (registeredCount idx : Nat) : Option (List (Option StmtState) × StmtRef) :=
  if registeredCount ≤ idx then none
  else
    let cache1 :=
      if cache.length ≤ idx then
        cache ++ List.replicate (idx + 1 - cache.length) none
      else cache
    let slot := (cache1.getD idx none).getD ⟨false, false⟩
    let slot1 := if slot.isPrepared then slot else ⟨true, slot.isActive⟩
    let cache2 := cache1.set idx (some slot1)
    if slot1.isActive then some (cache2, .privateCopy ⟨true, false⟩)
    else some (cache2, .cachedObj slot1)

/-! ## Helper lemmas: the container operations keep the storage ascending -/

theorem insertID_mem {l : List ID} {x b : ID} (h : b ∈ (insertID l x).1) :
    b ∈ l ∨ b = x := by
  induction l with
  | nil =>
    simp [insertID] at h
    exact Or.inr h
  | cons y ys ih =>
    by_cases h1 : x < y
    · simp [insertID, h1] at h
      rcases h with h | h | h
      · exact Or.inr h
      · exact Or.inl (by simp [h])
      · exact Or.inl (by simp [h])
    · by_cases h2 : x = y
      · simp [insertID, h1, h2] at h
        exact Or.inl (by simpa using h)
      · simp [insertID, h1, h2] at h
        rcases h with h | h
        · exact Or.inl (by simp [h])
        · rcases ih h with h | h
          · exact Or.inl (by simp [h])
          · exact Or.inr h

theorem insertID_sorted {l : List ID} (x : ID) (hs : Ascending l) :
    Ascending (insertID l x).1 := by
  induction l with
  | nil => simp [insertID, Ascending]
  | cons y ys ih =>
    obtain ⟨hhead, htail⟩ := List.sorted_cons.mp hs
    by_cases h1 : x < y
    · simp only [insertID, if_pos h1]
      refine List.sorted_cons.mpr ⟨?_, hs⟩
      intro b hb
      rcases List.mem_cons.mp hb with h | h
      · simpa [h] using h1
      · exact lt_trans h1 (hhead b h)
    · by_cases h2 : x = y
      · simpa [insertID, h1, h2] using hs
      · have hyx : y < x :=
          lt_of_le_of_ne (not_lt.mp h1) (fun h => h2 h.symm)
        simp only [insertID, if_neg h1, if_neg h2]
        refine List.sorted_cons.mpr ⟨?_, ih htail⟩
        intro b hb
        rcases insertID_mem hb with h | h
        · exact hhead b h
        · simpa [h] using hyx

theorem eraseID_sublist (l : List ID) (x : ID) : (eraseID l x).1.Sublist l := by
  induction l with
  | nil => simp [eraseID]
  | cons y ys ih =>
    by_cases h1 : x < y
    · simp [eraseID, h1]
    · by_cases h2 : x = y
      · simp only [eraseID, if_neg h1, if_pos h2]
        exact List.sublist_cons_self y ys
      · simpa [eraseID, h1, h2] using ih.cons₂ y

theorem eraseID_sorted {l : List ID} (x : ID) (hs : Ascending l) :
    Ascending (eraseID l x).1 :=
  List.Pairwise.sublist (eraseID_sublist l x) hs

theorem insertMerge_mem {dst src : List ID} {b : ID}
    (h : b ∈ (insertMerge dst src).1) : b ∈ dst ∨ b ∈ src := by
  induction dst, src using insertMerge.induct with
  | case1 dst => simp [insertMerge] at h; exact Or.inl h
  | case2 s ss =>
    simp only [insertMerge] at h
    exact Or.inr h
  | case3 ds s ss ih =>
    simp [insertMerge] at h
    rcases h with h | h
    · exact Or.inl (by simp [h])
    · rcases ih h with h | h
      · exact Or.inl (by simp [h])
      · exact Or.inr (by simp [h])
  | case4 d ds s ss hne hlt ih =>
    simp [insertMerge, hne, hlt] at h
    rcases h with h | h
    · exact Or.inr (by simp [h])
    · rcases ih h with h | h
      · exact Or.inl h
      · exact Or.inr (by simp [h])
  | case5 d ds s ss hne hlt ih =>
    simp [insertMerge, hne, hlt] at h
    rcases h with h | h
    · exact Or.inl (by simp [h])
    · rcases ih h with h | h
      · exact Or.inl (by simp [h])
      · exact Or.inr h

theorem insertMerge_sorted {dst src : List ID}
    (hd : Ascending dst) (hs : Ascending src) :
    Ascending (insertMerge dst src).1 := by
  induction dst, src using insertMerge.induct with
  | case1 dst => simpa [insertMerge] using hd
  | case2 s ss => simpa only [insertMerge] using hs
  | case3 ds s ss ih =>
    obtain ⟨hd1, hd2⟩ := List.sorted_cons.mp hd
    obtain ⟨hs1, hs2⟩ := List.sorted_cons.mp hs
    simp only [insertMerge, if_pos rfl]
    refine List.sorted_cons.mpr ⟨?_, ih hd2 hs2⟩
    intro b hb
    rcases insertMerge_mem hb with h | h
    · exact hd1 b h
    · exact hs1 b h
  | case4 d ds s ss hne hlt ih =>
    obtain ⟨hs1, hs2⟩ := List.sorted_cons.mp hs
    simp only [insertMerge, if_neg hne, if_pos hlt]
    refine List.sorted_cons.mpr ⟨?_, ih hd hs2⟩
    intro b hb
    rcases insertMerge_mem hb with h | h
    · rcases List.mem_cons.mp h with h | h
      · simpa [h] using hlt
      · exact lt_trans hlt ((List.sorted_cons.mp hd).1 b h)
    · exact hs1 b h
  | case5 d ds s ss hne hlt ih =>
    have hds : d < s :=
      lt_of_le_of_ne (not_lt.mp hlt) (fun h => hne h.symm)
    obtain ⟨hd1, hd2⟩ := List.sorted_cons.mp hd
    simp only [insertMerge, if_neg hne, if_neg hlt]
    refine List.sorted_cons.mpr ⟨?_, ih hd2 hs⟩
    intro b hb
    rcases insertMerge_mem hb with h | h
    · exact hd1 b h
    · rcases List.mem_cons.mp h with h | h
      · simpa [h] using hds
      · exact lt_trans hds ((List.sorted_cons.mp hs).1 b h)

theorem eraseMerge_sublist (dst src : List ID) :
    (eraseMerge dst src).1.Sublist dst := by
  induction dst, src using eraseMerge.induct with
  | case1 dst => simp [eraseMerge]
  | case2 s ss => simp [eraseMerge]
  | case3 ds s ss ih => simpa [eraseMerge] using ih.cons s
  | case4 d ds s ss hne hlt ih => simpa [eraseMerge, hne, hlt] using ih
  | case5 d ds s ss hne hlt ih =>
    simpa [eraseMerge, hne, hlt] using ih.cons₂ d

theorem eraseMerge_sorted {dst : List ID} (src : List ID) (hd : Ascending dst) :
    Ascending (eraseMerge dst src).1 :=
  List.Pairwise.sublist (eraseMerge_sublist dst src) hd

theorem intersectMerge_sublist (dst src : List ID) :
    (intersectMerge dst src).1.Sublist dst := by
  induction dst, src using intersectMerge.induct with
  | case1 src => simp [intersectMerge]
  | case2 d ds => simp [intersectMerge]
  | case3 ds s ss ih => simpa [intersectMerge] using ih.cons₂ s
  | case4 d ds s ss hne hlt ih => simpa [intersectMerge, hne, hlt] using ih
  | case5 d ds s ss hne hlt ih =>
    simpa [intersectMerge, hne, hlt] using ih.cons d

theorem intersectMerge_sorted {dst : List ID} (src : List ID)
    (hd : Ascending dst) : Ascending (intersectMerge dst src).1 :=
  List.Pairwise.sublist (intersectMerge_sublist dst src) hd

theorem symdiffMerge_mem {dst src : List ID} {b : ID}
    (h : b ∈ symdiffMerge dst src) : b ∈ dst ∨ b ∈ src := by
  induction dst, src using symdiffMerge.induct with
  | case1 dst => simp [symdiffMerge] at h; exact Or.inl h
  | case2 s ss =>
    simp only [symdiffMerge] at h
    exact Or.inr h
  | case3 ds s ss ih =>
    simp only [symdiffMerge, if_pos rfl] at h
    rcases ih h with h | h
    · exact Or.inl (by simp [h])
    · exact Or.inr (by simp [h])
  | case4 d ds s ss hne hlt ih =>
    simp [symdiffMerge, hne, hlt] at h
    rcases h with h | h
    · exact Or.inr (by simp [h])
    · rcases ih h with h | h
      · exact Or.inl h
      · exact Or.inr (by simp [h])
  | case5 d ds s ss hne hlt ih =>
    simp [symdiffMerge, hne, hlt] at h
    rcases h with h | h
    · exact Or.inl (by simp [h])
    · rcases ih h with h | h
      · exact Or.inl (by simp [h])
      · exact Or.inr h

theorem symdiffMerge_sorted {dst src : List ID}
    (hd : Ascending dst) (hs : Ascending src) :
    Ascending (symdiffMerge dst src) := by
  induction dst, src using symdiffMerge.induct with
  | case1 dst => simpa [symdiffMerge] using hd
  | case2 s ss => simpa only [symdiffMerge] using hs
  | case3 ds s ss ih =>
    simp only [symdiffMerge, if_pos rfl]
    exact ih (List.sorted_cons.mp hd).2 (List.sorted_cons.mp hs).2
  | case4 d ds s ss hne hlt ih =>
    obtain ⟨hs1, hs2⟩ := List.sorted_cons.mp hs
    simp only [symdiffMerge, if_neg hne, if_pos hlt]
    refine List.sorted_cons.mpr ⟨?_, ih hd hs2⟩
    intro b hb
    rcases symdiffMerge_mem hb with h | h
    · rcases List.mem_cons.mp h with h | h
      · simpa [h] using hlt
      · exact lt_trans hlt ((List.sorted_cons.mp hd).1 b h)
    · exact hs1 b h
  | case5 d ds s ss hne hlt ih =>
    have hds : d < s :=
      lt_of_le_of_ne (not_lt.mp hlt) (fun h => hne h.symm)
    obtain ⟨hd1, hd2⟩ := List.sorted_cons.mp hd
    simp only [symdiffMerge, if_neg hne, if_neg hlt]
    refine List.sorted_cons.mpr ⟨?_, ih hd2 hs⟩
    intro b hb
    rcases symdiffMerge_mem hb with h | h
    · exact hd1 b h
    · rcases List.mem_cons.mp h with h | h
      · simpa [h] using hds
      · exact lt_trans hds ((List.sorted_cons.mp hs).1 b h)

/-! ## Cursor lemmas -/

theorem minGreater_eq_head? {v : List ID} {x : ID} (h : ∀ z ∈ v, x < z) :
    minGreater v x = v.head? := by
  cases v with
  | nil => rfl
  | cons z zs =>
    rw [minGreater, List.find?_cons_of_pos]
    · rfl
    · simpa using h z (by simp)

theorem minGreater_of_getElem? {w : List ID} {pos : Nat} {x : ID}
    (hs : Ascending w) (h : w[pos]? = some x) :
    minGreater w x = w[pos + 1]? := by
  induction w generalizing pos with
  | nil => simp at h
  | cons y ys ih =>
    obtain ⟨h1, h2⟩ := List.sorted_cons.mp hs
    cases pos with
    | zero =>
      have hxy : y = x := by simpa using h
      rw [List.getElem?_cons_succ, minGreater]
      rw [List.find?_cons_of_neg _ (by simp [hxy])]
      have heq := minGreater_eq_head? (fun z hz => hxy ▸ h1 z hz)
      rw [minGreater] at heq
      rw [heq]
      cases ys <;> simp
    | succ p =>
      rw [List.getElem?_cons_succ] at h
      have hyx : y < x := h1 x (List.getElem?_mem h)
      rw [List.getElem?_cons_succ, minGreater]
      rw [List.find?_cons_of_neg _ (by simp [not_lt.mpr hyx.le])]
      exact ih h2 h

theorem minGreater_of_lowerBound_none {w : List ID} {x : ID}
    (h : w[lowerBoundIdx w x]? = none) : minGreater w x = none := by
  induction w with
  | nil => rfl
  | cons y ys ih =>
    by_cases hy : y < x
    · rw [lowerBoundIdx, if_pos hy, List.getElem?_cons_succ] at h
      rw [minGreater, List.find?_cons_of_neg _ (by simp [not_lt.mpr hy.le])]
      exact ih h
    · rw [lowerBoundIdx, if_neg hy, List.getElem?_cons_zero] at h
      exact absurd h (by simp)

theorem minGreater_of_lowerBound_ne {w : List ID} {x y : ID}
    (h : w[lowerBoundIdx w x]? = some y) (hne : y ≠ x) :
    minGreater w x = some y := by
  induction w with
  | nil => simp at h
  | cons z zs ih =>
    by_cases hz : z < x
    · rw [lowerBoundIdx, if_pos hz, List.getElem?_cons_succ] at h
      rw [minGreater, List.find?_cons_of_neg _ (by simp [not_lt.mpr hz.le])]
      exact ih h
    · rw [lowerBoundIdx, if_neg hz, List.getElem?_cons_zero,
          Option.some.injEq] at h
      have hxz : x < z :=
        lt_of_le_of_ne (not_lt.mp hz) (fun a => hne (h ▸ a.symm))
      rw [minGreater, List.find?_cons_of_pos _ (by simpa using hxz), h]

theorem sorted_getElem?_lt {w : List ID} {i j : Nat} {a b : ID}
    (hs : Ascending w) (ha : w[i]? = some a) (hb : w[j]? = some b)
    (hij : i < j) : a < b := by
  obtain ⟨hi, rfl⟩ := List.getElem?_eq_some.mp ha
  obtain ⟨hj, rfl⟩ := List.getElem?_eq_some.mp hb
  exact List.pairwise_iff_getElem.mp hs i j hi hj hij

theorem cursorSync_id_none {w : List ID} {c : Cursor} (h : c.id = none) :
    cursorSync w c = c := by
  unfold cursorSync
  rw [h]

theorem cursorNext_id_none {w : List ID} {c : Cursor} (h : c.id = none) :
    cursorNext w c = c := by
  unfold cursorNext
  rw [h]

theorem cursorSync_of_match {w : List ID} {c : Cursor} {y : ID}
    (hid : c.id = some y) (hpos : w[c.pos]? = some y) :
    cursorSync w c = c := by
  have h1 : cursorSync w c = syncAt w c.pos y := by
    unfold cursorSync
    rw [hid]
  rw [h1]
  unfold syncAt
  rw [if_pos hpos]
  cases c
  simp_all

/-- Advancing past a just-served id `x`: for sorted storage `w`, whatever
the recorded position, `next` leaves the cursor on the least id of `w`
exceeding `x` (EOF if none), recorded at a position that again matches the
storage. -/
theorem cursorNext_after_serve {w : List ID} (hs : Ascending w)
    (pos : Nat) (x : ID) :
    (cursorNext w ⟨pos, some x⟩).id = minGreater w x ∧
      ∀ y, (cursorNext w ⟨pos, some x⟩).id = some y →
        w[(cursorNext w ⟨pos, some x⟩).pos]? = some y := by
  have hstep : cursorNext w ⟨pos, some x⟩
      = advanceAt w (syncAt w pos x) x := rfl
  by_cases hpos : w[pos]? = some x
  · have hsync : syncAt w pos x = ⟨pos, some x⟩ := by
      unfold syncAt
      rw [if_pos hpos]
    rw [hstep, hsync]
    unfold advanceAt
    simp only [if_pos rfl]
    rcases hz : w[pos + 1]? with _ | z
    · simp [minGreater_of_getElem? hs hpos, hz]
    · simp [minGreater_of_getElem? hs hpos, hz]
  · rcases hlb : w[lowerBoundIdx w x]? with _ | y
    · have hsync : syncAt w pos x = ⟨pos, none⟩ := by
        unfold syncAt
        rw [if_neg hpos]
        simp only [hlb]
      rw [hstep, hsync]
      unfold advanceAt
      simp [minGreater_of_lowerBound_none hlb]
    · by_cases hyx : y = x
      · subst hyx
        rcases hnext : w[lowerBoundIdx w y + 1]? with _ | z
        · have hsync : syncAt w pos y = ⟨pos, none⟩ := by
            unfold syncAt
            rw [if_neg hpos]
            simp [hlb, hnext]
          rw [hstep, hsync]
          unfold advanceAt
          simp [minGreater_of_getElem? hs hlb, hnext]
        · have hzy : y < z := sorted_getElem?_lt hs hlb hnext (by omega)
          have hsync : syncAt w pos y = ⟨lowerBoundIdx w y + 1, some z⟩ := by
            unfold syncAt
            rw [if_neg hpos]
            simp [hlb, hnext]
          rw [hstep, hsync]
          unfold advanceAt
          simp only [Option.some.injEq,
            if_neg (fun h => absurd h (ne_of_gt hzy))]
          simp [minGreater_of_getElem? hs hlb, hnext]
      · have hsync : syncAt w pos x = ⟨lowerBoundIdx w x, some y⟩ := by
          unfold syncAt
          rw [if_neg hpos]
          simp [hlb, hyx]
        rw [hstep, hsync]
        unfold advanceAt
        simp only [Option.some.injEq, if_neg hyx]
        simp [minGreater_of_lowerBound_ne hlb hyx, hlb]

theorem cursorRunAux_eq {muts : List (List ID)}
    (hm : ∀ w ∈ muts, Ascending w) (c : Cursor) :
    cursorRunAux c muts = specRunAux c.id muts := by
  induction muts generalizing c with
  | nil => rfl
  | cons w ws ih =>
    have hw : Ascending w := hm w (by simp)
    have hws : ∀ u ∈ ws, Ascending u := fun u hu => hm u (by simp [hu])
    rcases hc : c.id with _ | x
    · rw [cursorRunAux, cursorServe, cursorNext_id_none hc,
          cursorSync_id_none hc, specRunAux]
      rw [ih hws c, hc]
      simp [specServe]
    · have hn := cursorNext_after_serve hw c.pos x
      have hcc : (⟨c.pos, some x⟩ : Cursor) = c := by
        cases c
        simp_all
      rw [hcc] at hn
      have hserve : cursorServe w (cursorNext w c) = cursorNext w c := by
        rcases hid : (cursorNext w c).id with _ | y
        · exact cursorSync_id_none hid
        · exact cursorSync_of_match hid (hn.2 y hid)
      rw [cursorRunAux, hserve, specRunAux]
      rw [ih hws]
      simp [hn.1, hc, specServe]

theorem cursorRun_eq {v0 : List ID} {muts : List (List ID)}
    (h0 : Ascending v0) (hm : ∀ w ∈ muts, Ascending w) :
    cursorRun v0 muts = specRun v0 muts := by
  cases v0 with
  | nil =>
    rw [cursorRun, specRun]
    have : cursorServe ([] : List ID) (cursorFilter [] openedCursor)
        = openedCursor := rfl
    rw [this, cursorRunAux_eq hm]
    rfl
  | cons x xs =>
    rw [cursorRun, specRun]
    have : cursorServe (x :: xs) (cursorFilter (x :: xs) openedCursor)
        = ⟨0, some x⟩ :=
      cursorSync_of_match rfl (by simp [cursorFilter])
    rw [this, cursorRunAux_eq hm]
    rfl

theorem specRunAux_chain (prev : Option ID) (muts : List (List ID)) :
    List.Chain' ServedLt (prev :: specRunAux prev muts) := by
  induction muts generalizing prev with
  | nil => simp [specRunAux]
  | cons w ws ih =>
    rw [specRunAux]
    refine List.chain'_cons.mpr ⟨?_, ih (specServe prev w)⟩
    intro x y hx hy
    rw [hx] at hy
    simp only [specServe, Option.bind_eq_bind, Option.some_bind] at hy
    have := List.find?_some hy
    simpa using this

/-! ## Further helper lemmas -/

theorem insertID_of_mem {l : List ID} {x : ID} (hs : Ascending l)
    (hx : x ∈ l) : insertID l x = (l, false) := by
  induction l with
  | nil => simp at hx
  | cons y ys ih =>
    obtain ⟨hhead, htail⟩ := List.sorted_cons.mp hs
    rcases List.mem_cons.mp hx with h | h
    · simp [insertID, h]
    · have hyx : y < x := hhead x h
      have h1 : ¬x < y := not_lt.mpr hyx.le
      have h2 : ¬x = y := fun a => absurd (a ▸ hyx) (lt_irrefl x)
      simp [insertID, h1, h2, ih htail h]

theorem insertID_snd_of_not_mem {l : List ID} {x : ID} (hx : x ∉ l) :
    (insertID l x).2 = true := by
  induction l with
  | nil => simp [insertID]
  | cons y ys ih =>
    have hxy : ¬x = y := by
      intro h
      exact hx (by simp [h])
    by_cases h1 : x < y
    · simp [insertID, h1]
    · simp only [insertID, if_neg h1, if_neg hxy]
      exact ih (fun h => hx (by simp [h]))

theorem insertID_self_mem (l : List ID) (x : ID) : x ∈ (insertID l x).1 := by
  induction l with
  | nil => simp [insertID]
  | cons y ys ih =>
    by_cases h1 : x < y
    · simp [insertID, h1]
    · by_cases h2 : x = y
      · simp [insertID, h1, h2]
      · simp only [insertID, if_neg h1, if_neg h2]
        simp [ih]

theorem insertID_sublist (l : List ID) (x : ID) :
    l.Sublist (insertID l x).1 := by
  induction l with
  | nil => simp [insertID]
  | cons y ys ih =>
    by_cases h1 : x < y
    · simp [insertID, h1]
    · by_cases h2 : x = y
      · simp [insertID, h1, h2]
      · simp only [insertID, if_neg h1, if_neg h2]
        exact ih.cons₂ y

/-- Every storage produced by the update hook is one of: the input, an
erase, an insert, or an erase followed by an insert — all of which keep
the vector strictly ascending. -/
theorem vtabUpdate_sorted {s : List ID} {conflict : ConflictAction}
    {argv : List (Option ID)} {r : UpdateResult}
    (hs : Ascending s) (h : vtabUpdate s conflict argv = some r) :
    Ascending r.storage := by
  unfold vtabUpdate at h
  repeat' split at h
  all_goals try exact Option.noConfusion h
  all_goals
    injection h with h1
  all_goals subst h1
  all_goals
    first
      | exact hs
      | exact eraseID_sorted _ hs
      | exact insertID_sorted _ hs
      | exact insertID_sorted _ (eraseID_sorted _ hs)

/-- Joint effect of `IDSet::swap` on storages, attachments and body
addresses (distinct objects). -/
theorem swapSets_spec (a b : IDSetM) :
    (swapSets a b false).1.storage = b.storage ∧
    (swapSets a b false).2.storage = a.storage ∧
    (swapSets a b false).1.db = b.db ∧
    (swapSets a b false).2.db = a.db ∧
    (swapSets a b false).1.bodyAddr = a.bodyAddr ∧
    (swapSets a b false).2.bodyAddr = b.bodyAddr := by
  unfold swapSets
  by_cases hdb : a.db = b.db
  · simp [hdb]
  · rcases ha : a.db with _ | d1 <;> rcases hb : b.db with _ | d2 <;>
      simp_all [IDSetM.detach, IDSetM.attach]

theorem registerAll_spec (events : List RegEvent) (q : HookQueues) :
    registerAll q events =
      ⟨q.commitActions ++ commitLabels events,
       q.rollbackActions ++ rollbackLabels events⟩ := by
  induction events generalizing q with
  | nil => simp [registerAll, commitLabels, rollbackLabels]
  | cons e es ih =>
    cases e with
    | regCommit a =>
      rw [registerAll, ih]
      simp [applyReg, commitLabels, rollbackLabels]
    | regRollback a =>
      rw [registerAll, ih]
      simp [applyReg, commitLabels, rollbackLabels]

theorem drainFifo_eq (l : List Nat) : drainFifo l = l := by
  induction l with
  | nil => rfl
  | cons a rest ih => rw [drainFifo, ih]

theorem drainLifo_eq (l : List Nat) : drainLifo l = l.reverse := by
  induction l with
  | nil => rfl
  | cons a rest ih => rw [drainLifo, ih, List.reverse_cons]

/-! ## Claim theorems -/

/-- C2: on outermost commit the commit queue drains exactly once in FIFO
(registration) order and the rollback queue is discarded unrun; on a
rollback reaching the outermost frame the rollback queue drains exactly
once in LIFO (reverse registration) order and the commit queue is
discarded unrun — for every interleaved registration sequence. -/
theorem claim_C2 (events : List RegEvent) :
    (transactionCommitted (registerAll ⟨[], []⟩ events)).2
        = commitLabels events ∧
    (transactionCommitted (registerAll ⟨[], []⟩ events)).1.commitActions = [] ∧
    (transactionCommitted (registerAll ⟨[], []⟩ events)).1.rollbackActions
        = [] ∧
    (transactionRolledBack (registerAll ⟨[], []⟩ events)).2
        = (rollbackLabels events).reverse ∧
    (transactionRolledBack (registerAll ⟨[], []⟩ events)).1.commitActions
        = [] ∧
    (transactionRolledBack (registerAll ⟨[], []⟩ events)).1.rollbackActions
        = [] := by
  rw [registerAll_spec]
  simp [transactionCommitted, transactionRolledBack, drainFifo_eq,
        drainLifo_eq]

/-- C4: the IDSet storage vector stays strictly ascending (unique sorted
keys) under every public container operation — single insert and erase,
bulk insert, erase, intersect and symmetric difference (including the
aliased self cases), clear, swap — and under every virtual-table
update-hook directive. -/
theorem claim_C4 (s t : List ID) (x : ID) (same : Bool)
    (conflict : ConflictAction) (argv : List (Option ID)) (a b : IDSetM)
    (hs : Ascending s) (ht : Ascending t)
    (ha : Ascending a.storage) (hb : Ascending b.storage) :
    Ascending (insertID s x).1 ∧
    Ascending (eraseID s x).1 ∧
    Ascending (insertSet s t same).1 ∧
    Ascending (eraseSet s t same).1 ∧
    Ascending (intersectSet s t same).1 ∧
    Ascending (symdiffSet s t same) ∧
    Ascending ([] : List ID) ∧
    Ascending (swapSets a b same).1.storage ∧
    Ascending (swapSets a b same).2.storage ∧
    (∀ r : UpdateResult, vtabUpdate s conflict argv = some r →
      Ascending r.storage) := by
  refine ⟨insertID_sorted x hs, eraseID_sorted x hs, ?_, ?_, ?_, ?_,
          by simp [Ascending], ?_, ?_, fun r h => vtabUpdate_sorted hs h⟩
  · unfold insertSet
    split
    · exact hs
    · split
      · exact ht
      · exact insertMerge_sorted hs ht
  · unfold eraseSet
    split
    · exact hs
    · split
      · simp [Ascending]
      · exact eraseMerge_sorted t hs
  · unfold intersectSet
    split
    · exact hs
    · split
      · simp [Ascending]
      · exact intersectMerge_sorted t hs
  · unfold symdiffSet
    split
    · simp [Ascending]
    · split
      · exact hs
      · exact symdiffMerge_sorted hs ht
  · cases same with
    | true => simpa [swapSets] using ha
    | false => rw [(swapSets_spec a b).1]; exact hb
  · cases same with
    | true => simpa [swapSets] using hb
    | false => rw [(swapSets_spec a b).2.1]; exact ha

/-- Witness for C4 at a concrete pair of sorted sets and a concrete
update-hook INSERT. -/
theorem claim_C4_witness :
    Ascending [1, 3] ∧ Ascending [2, 3] ∧
    Ascending (insertSet [1, 3] [2, 3] false).1 ∧
    Ascending (symdiffSet [1, 3] [2, 3] false) :=
  have h := claim_C4 [1, 3] [2, 3] 2 false ConflictAction.abortStmt
    [none, none, some 5] ⟨1, [1, 3], none⟩ ⟨2, [2, 3], some 0⟩
    (by decide) (by decide) (by decide) (by decide)
  ⟨by decide, by decide, h.2.2.1, h.2.2.2.2.2.1⟩

/-- C9: swapping two distinct IDSets exchanges their storages and their
session attachments but leaves both SQL names (derived from the stable
body addresses) unchanged. -/
theorem claim_C9 (a b : IDSetM) :
    sqlName (swapSets a b false).1 = sqlName a ∧
    sqlName (swapSets a b false).2 = sqlName b ∧
    (swapSets a b false).1.storage = b.storage ∧
    (swapSets a b false).2.storage = a.storage ∧
    (swapSets a b false).1.db = b.db ∧
    (swapSets a b false).2.db = a.db := by
  obtain ⟨h1, h2, h3, h4, h5, h6⟩ := swapSets_spec a b
  exact ⟨by unfold sqlName; rw [h5], by unfold sqlName; rw [h6],
         h1, h2, h3, h4⟩

/-- C10: passing an IDSet to its own bulk operations is a well-defined
degenerate case: self-insert returns 0 and changes nothing, self-erase
empties the set and returns its former size, self-intersect returns 0 and
changes nothing, self-symmetric-difference empties the set. -/
theorem claim_C10 (s : List ID) :
    insertSet s s true = (s, 0) ∧
    eraseSet s s true = ([], s.length) ∧
    intersectSet s s true = (s, 0) ∧
    symdiffSet s s true = [] := by
  refine ⟨by simp [insertSet], ?_, by simp [intersectSet],
          by simp [symdiffSet]⟩
  by_cases h : s = []
  · simp [eraseSet, h]
  · simp [eraseSet, h]

/-- C5: before serving each value/rowid the cursor re-syncs against the
storage (position check, `lower_bound` relocation, extra step on an equal
hit, EOF when nothing remains).  Consequently, over any iteration whose
storage is mutated arbitrarily between steps but kept sorted, the trace of
served ids equals the specification trace — each step serves the least id
still present that exceeds the previously served id — so a cursor never
repeats a previously visited id and never skips a surviving id that
exceeds it. -/
theorem claim_C5 (v0 : List ID) (muts : List (List ID))
    (h0 : Ascending v0) (hm : ∀ w ∈ muts, Ascending w) :
    cursorRun v0 muts = specRun v0 muts ∧
    List.Chain' ServedLt (cursorRun v0 muts) := by
  have he := cursorRun_eq h0 hm
  refine ⟨he, ?_⟩
  rw [he, specRun]
  exact specRunAux_chain v0.head? muts

/-- Witness for C5: the spec's scenario S6 — cursor over `{1,2,3,4,5}`,
id 3 erased after id 2 was visited; the remaining steps serve 4, then 5,
then EOF, never repeating or skipping. -/
theorem claim_C5_witness :
    Ascending [1, 2, 3, 4, 5] ∧
    (∀ w ∈ [[1, 2, 4, 5], [1, 2, 4, 5], [1, 2, 4, 5], [1, 2, 4, 5]],
      Ascending w) ∧
    cursorRun [1, 2, 3, 4, 5] [[1, 2, 4, 5], [1, 2, 4, 5], [1, 2, 4, 5],
        [1, 2, 4, 5]]
      = [some 1, some 2, some 4, some 5, none] :=
  have h := claim_C5 [1, 2, 3, 4, 5]
    [[1, 2, 4, 5], [1, 2, 4, 5], [1, 2, 4, 5], [1, 2, 4, 5]]
    (by decide) (by decide)
  ⟨by decide, by decide, by rw [h.1]; decide⟩

/-- C6: in the update hook, INSERT with id = NULL leaves the set
untouched and returns the NOT-NULL constraint status, recording an error
message exactly when the conflict action is not IGNORE (under IGNORE the
engine therefore treats the statement as a silent no-op); INSERT of an id
already present returns that id (status OK) under REPLACE, the UNIQUE
constraint without a message under IGNORE, and the UNIQUE constraint with
an error message otherwise — the set unchanged in all three; INSERT of a
new id adds exactly that id to the set. -/
theorem claim_C6 (storage : List ID) (conflict : ConflictAction) (x : ID)
    (hs : Ascending storage) :
    vtabUpdate storage conflict [none, none, none]
        = some ⟨storage, .constraintNotNull, none,
                conflict != ConflictAction.ignoreRow⟩ ∧
    (x ∈ storage →
      vtabUpdate storage .replace [none, none, some x]
          = some ⟨storage, .ok, some x, false⟩ ∧
      vtabUpdate storage .ignoreRow [none, none, some x]
          = some ⟨storage, .constraintUnique, none, false⟩ ∧
      (conflict ≠ .ignoreRow → conflict ≠ .replace →
        vtabUpdate storage conflict [none, none, some x]
            = some ⟨storage, .constraintUnique, none, true⟩)) ∧
    (x ∉ storage →
      vtabUpdate storage conflict [none, none, some x]
          = some ⟨(insertID storage x).1, .ok, none, false⟩ ∧
      x ∈ (insertID storage x).1 ∧
      storage.Sublist (insertID storage x).1) := by
  refine ⟨rfl, ?_, ?_⟩
  · intro hmem
    have hins : insertID storage x = (storage, false) :=
      insertID_of_mem hs hmem
    refine ⟨?_, ?_, ?_⟩
    · simp [vtabUpdate, hins]
    · simp [vtabUpdate, hins]
    · intro hni hnr
      cases conflict <;> simp_all [vtabUpdate, hins]
  · intro hnm
    have h2 : (insertID storage x).2 = true := insertID_snd_of_not_mem hnm
    exact ⟨by simp [vtabUpdate, h2], insertID_self_mem storage x,
           insertID_sublist storage x⟩

/-- Witness for C6 at the set `{2,4}`: a NULL insert under a non-IGNORE
conflict action, a duplicate insert of 4 under REPLACE, and a fresh insert
of 3. -/
theorem claim_C6_witness :
    Ascending [2, 4] ∧
    vtabUpdate [2, 4] ConflictAction.abortStmt [none, none, none]
      = some ⟨[2, 4], .constraintNotNull, none, true⟩ ∧
    vtabUpdate [2, 4] ConflictAction.replace [none, none, some 4]
      = some ⟨[2, 4], .ok, some 4, false⟩ ∧
    vtabUpdate [2, 4] ConflictAction.abortStmt [none, none, some 3]
      = some ⟨[2, 3, 4], .ok, none, false⟩ :=
  have h := claim_C6 [2, 4] ConflictAction.abortStmt 4 (by decide)
  have h3 := claim_C6 [2, 4] ConflictAction.abortStmt 3 (by decide)
  have hd : vtabUpdate [2, 4] ConflictAction.replace [none, none, some 4]
      = some ⟨[2, 4], .ok, some 4, false⟩ :=
    ((claim_C6 [2, 4] ConflictAction.replace 4 (by decide)).2.1
      (by decide)).1
  ⟨by decide, h.1, hd, by
    have := (h3.2.2 (by decide)).1
    simpa using this⟩

/-- Helper for C1: any run of Busy attempts caught at a non-nested,
still-active frame is rolled back and retried, so a body that finally
returns normally commits after exactly `pre.length` retries. -/
theorem beginLoopPlain_retries :
    ∀ (pre : List Attempt) (a : Attempt) (rest : List Attempt),
    (∀ b ∈ pre, b.outcome = .busy ∧ b.nestedAtCatch = false ∧
      b.activeAtCatch = true) →
    a.outcome = .ret →
    beginLoopPlain (pre ++ a :: rest)
      = some ⟨.committed, pre.length + 1, pre.length⟩ := by
  intro pre
  induction pre with
  | nil =>
    intro a rest _ hret
    rw [List.nil_append, beginLoopPlain, hret]
    simp
  | cons b bs ih =>
    intro a rest hpre hret
    obtain ⟨hb1, hb2, hb3⟩ := hpre b (by simp)
    rw [List.cons_append, beginLoopPlain, hb1]
    simp only [hb2, Bool.false_eq_true, if_false]
    rw [ih a rest (fun c hc => hpre c (by simp [hc])) hret]
    simp [hb3]

/-- C1: the `Transaction::begin` retry loop, in both source variants —
(i) a Busy caught while the frame is not nested and still active rolls the
frame back and re-runs the whole body from scratch; (ii) a Busy caught at
a nested frame propagates out unchanged, without being retried there;
(iii) a normal return commits; (iv) any other exception propagates;
(v) iteration continues until the body completes without Busy, which
commits after one rollback per Busy attempt. -/
theorem claim_C1 (a : Attempt) (rest pre : List Attempt) (m : Nat) :
    (a.outcome = .busy → a.nestedAtCatch = false → a.activeAtCatch = true →
      beginLoopPlain (a :: rest) = (beginLoopPlain rest).map
          (fun r => ⟨r.outcome, r.attempts + 1, r.rollbacks + 1⟩) ∧
      beginLoopEsc m (a :: rest)
        = (beginLoopEsc (if m = 0 then 1 else 2) rest).map
            (fun rm => (⟨rm.1.outcome, rm.1.attempts + 1,
                         rm.1.rollbacks + 1⟩, rm.2))) ∧
    (a.outcome = .busy → a.nestedAtCatch = true →
      beginLoopPlain (a :: rest) = some ⟨.busyPropagated, 1, 0⟩ ∧
      beginLoopEsc m (a :: rest) = some (⟨.busyPropagated, 1, 0⟩, m)) ∧
    (a.outcome = .ret →
      beginLoopPlain (a :: rest) = some ⟨.committed, 1, 0⟩ ∧
      beginLoopEsc m (a :: rest) = some (⟨.committed, 1, 0⟩, m)) ∧
    (a.outcome = .exn →
      beginLoopPlain (a :: rest) = some ⟨.exnPropagated, 1, 0⟩ ∧
      beginLoopEsc m (a :: rest) = some (⟨.exnPropagated, 1, 0⟩, m)) ∧
    ((∀ b ∈ pre, b.outcome = .busy ∧ b.nestedAtCatch = false ∧
        b.activeAtCatch = true) →
      a.outcome = .ret →
      beginLoopPlain (pre ++ a :: rest)
        = some ⟨.committed, pre.length + 1, pre.length⟩) := by
  refine ⟨?_, ?_, ?_, ?_, fun hpre hret => beginLoopPlain_retries
    pre a rest hpre hret⟩
  · intro h1 h2 h3
    constructor
    · rw [beginLoopPlain, h1]
      simp only [h2, Bool.false_eq_true, if_false, h3, if_true]
      cases hr : beginLoopPlain rest <;> simp
    · rw [beginLoopEsc, h1]
      simp only [h2, h3, Bool.not_true, Bool.or_self, Bool.false_eq_true,
                 if_false]
      cases hr : beginLoopEsc (if m = 0 then 1 else 2) rest with
      | none => simp
      | some rm => simp
  · intro h1 h2
    constructor
    · rw [beginLoopPlain, h1]
      simp [h2]
    · rw [beginLoopEsc, h1]
      simp [h2]
  · intro h1
    exact ⟨by rw [beginLoopPlain, h1], by rw [beginLoopEsc, h1]⟩
  · intro h1
    exact ⟨by rw [beginLoopPlain, h1], by rw [beginLoopEsc, h1]⟩

/-- Witness for C1: two Busy attempts at an outermost active frame, then a
clean run — three body executions, two rollbacks, committed; and a single
nested Busy propagating. -/
theorem claim_C1_witness :
    beginLoopPlain [⟨.busy, false, true⟩, ⟨.busy, false, true⟩,
        ⟨.ret, false, true⟩] = some ⟨.committed, 3, 2⟩ ∧
    beginLoopPlain [⟨.busy, true, true⟩] = some ⟨.busyPropagated, 1, 0⟩ := by
  constructor
  · have h := (claim_C1 ⟨.ret, false, true⟩ [] [⟨.busy, false, true⟩,
      ⟨.busy, false, true⟩] 0).2.2.2.2 (by decide) rfl
    simpa using h
  · exact ((claim_C1 ⟨.busy, true, true⟩ [] [] 0).2.1 rfl rfl).1

/-- Counterexample to C3 as stated: the step loop maps the engine status
OK — a status other than ROW, DONE, INTERRUPT, LOCKED, BUSY — to a reset
and a null Row, not to an Error as the claim's catch-all demands. -/
theorem claim_C3_counterexample :
    stmtNext true true [(.okSt, true)] = some (.gotRow false, true) ∧
    ∀ c : Int, stmtNext true true [(.okSt, true)]
      ≠ some (.threwError c, true) := by
  refine ⟨rfl, ?_⟩
  intro c h
  simp [stmtNext, stepLoop] at h

/-- C3 (amended): on an active prepared statement, `next` maps ROW to a
live Row (no reset); DONE — and likewise OK — to a reset and a null Row;
INTERRUPT to a reset and Interrupt; LOCKED to the Session's unlock-wait,
re-stepping on success and resetting and raising Busy when the wait
reports a possible deadlock; BUSY to a reset and Busy; and any remaining
status to a reset and Error; an unprepared or inactive statement returns a
null row without stepping. -/
theorem claim_C3 (p act w : Bool) (rest oracle : List (EngStatus × Bool))
    (c : Int) :
    stmtNext true true ((.rowSt, w) :: rest) = some (.gotRow true, false) ∧
    stmtNext true true ((.doneSt, w) :: rest) = some (.gotRow false, true) ∧
    stmtNext true true ((.okSt, w) :: rest) = some (.gotRow false, true) ∧
    stmtNext true true ((.interruptSt, w) :: rest)
      = some (.threwInterrupt, true) ∧
    stmtNext true true ((.lockedSt, false) :: rest)
      = some (.threwBusy, true) ∧
    stmtNext true true ((.lockedSt, true) :: rest) = stepLoop rest ∧
    stmtNext true true ((.busySt, w) :: rest) = some (.threwBusy, true) ∧
    stmtNext true true ((.other c, w) :: rest)
      = some (.threwError c, true) ∧
    (p = false ∨ act = false →
      stmtNext p act oracle = some (.gotRow false, false)) := by
  refine ⟨rfl, rfl, rfl, rfl, rfl, rfl, rfl, rfl, ?_⟩
  rintro (h | h) <;> simp [stmtNext, h]

/-- Witness for C3: the inactive-statement guard at a concrete input. -/
theorem claim_C3_witness :
    (false = false ∨ false = false) ∧
    stmtNext true false [(.rowSt, true)] = some (.gotRow false, false) :=
  ⟨Or.inl rfl,
   (claim_C3 true false true [] [(.rowSt, true)] 0).2.2.2.2.2.2.2.2
     (Or.inr rfl)⟩

/-- Counterexample to C7 as stated: on an engine-reported BUSY — a non-OK
status other than LOCKED — `prepare` raises Busy, not Error. -/
theorem claim_C7_counterexample :
    stmtPrepare ⟨false, false⟩ [(.busySt, true)]
      = some (⟨false, false⟩, .threwBusy) ∧
    ∀ c : Int, stmtPrepare ⟨false, false⟩ [(.busySt, true)]
      ≠ some (⟨false, false⟩, .threwError c) := by
  refine ⟨rfl, ?_⟩
  intro c h
  simp [stmtPrepare, prepLoop, stmtFinalize] at h

/-- C7 (amended): `prepare` first finalizes an already-prepared statement;
then, on LOCKED it waits on the Session's unlock-notification — retrying
the prepare on success and raising Busy when registering the unlock-notify
reports a possible deadlock; on BUSY it raises Busy; on any other non-OK
status it raises Error; OK stores the compiled handle. -/
theorem claim_C7 (s : StmtState) (rest : List (EngStatus × Bool))
    (w : Bool) (c : Int) :
    stmtPrepare s ((.lockedSt, false) :: rest)
      = some (stmtFinalize s, .threwBusy) ∧
    stmtPrepare s ((.lockedSt, true) :: rest) = stmtPrepare s rest ∧
    stmtPrepare s ((.busySt, w) :: rest)
      = some (stmtFinalize s, .threwBusy) ∧
    stmtPrepare s ((.other c, w) :: rest)
      = some (stmtFinalize s, .threwError c) ∧
    stmtPrepare s ((.rowSt, w) :: rest)
      = some (stmtFinalize s, .threwError 100) ∧
    stmtPrepare s ((.doneSt, w) :: rest)
      = some (stmtFinalize s, .threwError 101) ∧
    stmtPrepare s ((.interruptSt, w) :: rest)
      = some (stmtFinalize s, .threwError 9) ∧
    stmtPrepare s ((.okSt, w) :: rest)
      = some (⟨true, (stmtFinalize s).isActive⟩, .preparedOk) ∧
    (s.isPrepared = true → stmtFinalize s = ⟨false, false⟩) := by
  refine ⟨rfl, rfl, rfl, rfl, rfl, rfl, rfl, rfl, ?_⟩
  intro h
  simp [stmtFinalize, h]

/-- Witness for C7: preparing an already-prepared statement finalizes the
old handle first. -/
theorem claim_C7_witness :
    (⟨true, false⟩ : StmtState).isPrepared = true ∧
    stmtFinalize ⟨true, false⟩ = ⟨false, false⟩ :=
  ⟨rfl, (claim_C7 ⟨true, false⟩ [] true 0).2.2.2.2.2.2.2.2 rfl⟩

/-- C8: when the Session's cached Statement for a registered id is already
active (re-entrant use), lookup by id returns a freshly compiled private
copy — not the cached object — and the cache slot still holds the active
cached statement, so concurrent iterations on the same registered text
within one thread do not clobber each other. -/
theorem claim_C8 (cache : List (Option StmtState))
    (registeredCount idx : Nat) (hidx : idx < registeredCount)
    (hlen : idx < cache.length)
    (hslot : cache.getD idx none = some ⟨true, true⟩) :
    sessionStatementById cache registeredCount idx
      = some (cache.set idx (some ⟨true, true⟩),
              .privateCopy ⟨true, false⟩) ∧
    (cache.set idx (some ⟨true, true⟩)).getD idx none
      = some ⟨true, true⟩ ∧
    StmtRef.privateCopy ⟨true, false⟩ ≠ StmtRef.cachedObj ⟨true, true⟩ := by
  refine ⟨?_, ?_, by simp⟩
  · unfold sessionStatementById
    rw [if_neg (Nat.not_le.mpr hidx), if_neg (Nat.not_le.mpr hlen)]
    rw [List.getD_eq_getElem?_getD] at hslot
    simp [hslot]
  · simp [List.getD_eq_getElem?_getD, List.getElem?_set_self, hlen]

/-- Witness for C8: a one-slot cache holding an active statement. -/
theorem claim_C8_witness :
    (0 : Nat) < 1 ∧ (0 : Nat) < 1 ∧
    ([some (⟨true, true⟩ : StmtState)].getD 0 none = some ⟨true, true⟩) ∧
    sessionStatementById [some ⟨true, true⟩] 1 0
      = some ([some ⟨true, true⟩], .privateCopy ⟨true, false⟩) :=
  have h := claim_C8 [some ⟨true, true⟩] 1 0 (by decide) (by decide) rfl
  ⟨by decide, by decide, rfl, by simpa using h.1⟩

end WrSql
